import Mathlib

/- Shallow embedding of `intersect.py` (pipe-intersection cutting-template
   generator) over exact real arithmetic, with proofs about its vector
   algebra, quadratic solver, cylinder model, intersection driver and
   template emission. -/

noncomputable section
open scoped Classical

namespace Intersect

/-- Vectors are triples of reals, mirroring the source's 3-tuples. -/
abbrev V3 := ℝ × ℝ × ℝ

/-- A line is a (point, direction) pair, as in the source. -/
abbrev Line := V3 × V3

/-- A 2D template segment ((x0,y0),(x1,y1)), as handed to the drawing sink. -/
abbrev Seg := (ℝ × ℝ) × (ℝ × ℝ)

/-- Source `dot(u, v)`. -/
def dot (u v : V3) : ℝ := u.1 * v.1 + u.2.1 * v.2.1 + u.2.2 * v.2.2

/-- Source `scale(v, k)`. -/
def scale (v : V3) (k : ℝ) : V3 := (v.1 * k, v.2.1 * k, v.2.2 * k)

/-- Source `normalize(v)`: scale by the reciprocal of the Euclidean norm.
    (On v = 0 the source divides by zero; real division by zero here.) -/
def normalize (v : V3) : V3 := scale v (1 / Real.sqrt (dot v v))

/-- Source `cross(u, v)`. -/
def cross (u v : V3) : V3 :=
  (u.2.1 * v.2.2 - u.2.2 * v.2.1,
   u.2.2 * v.1 - u.1 * v.2.2,
   u.1 * v.2.1 - u.2.1 * v.1)

/-- Source `gen_normal(v)`: a vector normal to `v`, by basis-vector
    preference x, then y, then z, else `(0, v.z, -v.y)`. -/
def gen_normal (v : V3) : V3 :=
  if v.1 = 0 then (1, 0, 0)
  else if v.2.1 = 0 then (0, 1, 0)
  else if v.2.2 = 0 then (0, 0, 1)
  else (0, v.2.2, -v.2.1)

/-- Source `line_x(l, t)`: the point u + t·v of line l = (u, v). -/
def line_x (li : Line) (t : ℝ) : V3 :=
  (li.1.1 + li.2.1 * t, li.1.2.1 + li.2.2.1 * t, li.1.2.2 + li.2.2.2 * t)

/-- Tagged result of the source `quadratic`; constructor per source tag:
    `inf` = 'inf' (all reals), `inv` = 'inv' (no solution),
    `one` = '1' (one root), `zero` = '0' (no real roots),
    `two` = '2' (two roots). -/
inductive QResult where
  | inf : QResult
  | inv : QResult
  | one : ℝ → QResult
  | zero : QResult
  | two : ℝ → ℝ → QResult

/-- Source `quadratic(a, b, c)`: classify and solve a·t² + b·t + c = 0.
    The source's four mutually exclusive linear branches (a == 0) are
    written as nested conditionals; the general form follows the source:
    d = b·b − 4·a·c, then d = 0, d < 0, else two roots via √d. -/
def quadratic (a b c : ℝ) : QResult :=
  if a = 0 then
    if b = 0 then (if c = 0 then QResult.inf else QResult.inv)
    else if c = 0 then QResult.one 0
    else QResult.one (-c / b)
  else
    if b * b - 4 * a * c = 0 then QResult.one (-b / (2 * a))
    else if b * b - 4 * a * c < 0 then QResult.zero
    else
      QResult.two ((-b + Real.sqrt (b * b - 4 * a * c)) / (2 * a))
        ((-b - Real.sqrt (b * b - 4 * a * c)) / (2 * a))

/-- The list of root parameters carried by a quadratic result
    (the t values of a OneRoot or TwoRoots result). -/
def roots : QResult → List ℝ
  | QResult.one t => [t]
  | QResult.two t1 t2 => [t1, t2]
  | _ => []

/-- Source global `_NDIVS`: divisions around the circumference. -/
def NDIVS : ℕ := 32

/-- Source class `cylinder`: pose fields plus the frame normals computed
    at construction (the `color` tag, used only by the 3D-model sink, is
    omitted). -/
structure Cylinder where
  o : V3
  a : V3
  r : ℝ
  l : ℝ
  n0 : V3
  n1 : V3

/-- Source `cylinder.__init__`: normalize the axis, derive the two frame
    normals once; the record is immutable thereafter. -/
def mkCylinder (o a : V3) (r l : ℝ) : Cylinder :=
  let an := normalize a
  let m0 := normalize (gen_normal an)
  let m1 := normalize (cross an m0)
  ⟨o, an, r, l, m0, m1⟩

/-- Surface point of generator `i` in source `cylinder.gen_lines`:
    componentwise o + (r·cos θ)·n0 + (r·sin θ)·n1, θ = 2π·i/NDIVS. -/
def genPoint (c : Cylinder) (i : ℕ) : V3 :=
  let theta := 2 * Real.pi * (i : ℝ) / (NDIVS : ℝ)
  let rc := c.r * Real.cos theta
  let rs := c.r * Real.sin theta
  (c.o.1 + rc * c.n0.1 + rs * c.n1.1,
   c.o.2.1 + rc * c.n0.2.1 + rs * c.n1.2.1,
   c.o.2.2 + rc * c.n0.2.2 + rs * c.n1.2.2)

/-- Generator line `i`: starts at the surface point, runs along the axis. -/
def genLine (c : Cylinder) (i : ℕ) : Line := (genPoint c i, c.a)

/-- Source `cylinder.gen_lines`: the NDIVS generator lines in index order. -/
def gen_lines (c : Cylinder) : List Line := (List.range NDIVS).map (genLine c)

/-- Source `cylinder.intersect_line`: the direction is re-expressed in the
    cylinder frame (vn), while the quadratic's b and c coefficients use the
    line point's world x and y components (u[0], u[1]) exactly as the
    source does. -/
def intersect_line (c : Cylinder) (li : Line) : QResult :=
  let u := li.1
  let v := li.2
  let vn : V3 := (dot v c.n0, dot v c.n1, dot v c.a)
  quadratic (vn.1 * vn.1 + vn.2.1 * vn.2.1)
    (2 * (u.1 * vn.1 + u.2.1 * vn.2.1))
    (u.1 * u.1 + u.2.1 * u.2.1 - c.r * c.r)

/-- The segments drawn for one generator column in source `gen_dxf`:
    the if/elif chain tests tags 'inf', '0', '1', '2' in that order, so an
    'inv' result matches no branch and emits nothing. -/
def segsFor (res : QResult) (x l : ℝ) : List Seg :=
  match res with
  | QResult.inf => []
  | QResult.zero => [((x, 0), (x, l))]
  | QResult.one _ => [((x, 0), (x, l))]
  | QResult.two t1 t2 =>
      if t1 > t2 then [((x, (0 : ℝ)), (x, t2)), ((x, t1), (x, l))]
      else [((x, (0 : ℝ)), (x, t1)), ((x, t2), (x, l))]
  | QResult.inv => []

/-- Per-generator part of source `gen_dxf`: for each i the column at
    x = i·(2π·r₁)/NDIVS, fed with `intersect_line` of generator i of c1
    against c0 (the source indexes the `gen_lines` list; generator i of
    that list is `genLine c1 i`). -/
def genBody (c0 c1 : Cylinder) : List Seg :=
  (List.range NDIVS).flatMap fun i =>
    segsFor (intersect_line c0 (genLine c1 i))
      ((i : ℝ) * (2 * Real.pi * c1.r) / (NDIVS : ℝ)) c1.l

/-- Source `gen_dxf`: the baseline from (0,0) to (2π·r₁, 0) followed by
    the per-generator columns. -/
def gen_dxf (c0 c1 : Cylinder) : List Seg :=
  (((0 : ℝ), (0 : ℝ)), (2 * Real.pi * c1.r, (0 : ℝ))) :: genBody c0 c1

/-- Euclidean norm of a vector (the quantity `math.sqrt(dot(v, v))`
    that `normalize` divides by). -/
def vnorm (v : V3) : ℝ := Real.sqrt (dot v v)

/-- Componentwise vector difference (statement helper). -/
def vsub (u v : V3) : V3 := (u.1 - v.1, u.2.1 - v.2.1, u.2.2 - v.2.2)

/-- Componentwise vector sum (statement helper). -/
def vadd (u v : V3) : V3 := (u.1 + v.1, u.2.1 + v.2.1, u.2.2 + v.2.2)

/-- Distance of point p from the cylinder's axis line: the norm of the
    component of (p − origin) orthogonal to the (unit) axis. -/
def radialDist (c : Cylinder) (p : V3) : ℝ :=
  vnorm (vsub (vsub p c.o) (scale c.a (dot (vsub p c.o) c.a)))

/-- All root parameters of a result lie within [lo, hi]. -/
def rootsWithin (res : QResult) (lo hi : ℝ) : Prop :=
  ∀ t ∈ roots res, lo ≤ t ∧ t ≤ hi

/-- Cylinder A of the parallel-cylinder scenario: origin (0,0,0),
    axis (0,0,1), radius 1, length 10. -/
def cylA_par : Cylinder := mkCylinder ((0 : ℝ), 0, 0) ((0 : ℝ), 0, 1) 1 10

/-- Cylinder B of the parallel-cylinder scenario: origin (10,0,0),
    axis (0,0,1), radius 1, length 10 — separation 10 > 2·radius. -/
def cylB_par : Cylinder := mkCylinder ((10 : ℝ), 0, 0) ((0 : ℝ), 0, 1) 1 10

/-- A y-axis cylinder whose generator 0 crosses cylA_par at parameters
    0.3 and −1.3 (one root below 0). -/
def cylB_neg : Cylinder :=
  mkCylinder ((-0.4 : ℝ), 0.5, 0) ((0 : ℝ), 1, 0) 1 10

/-- A y-axis cylinder whose generator 0 crosses cylA_par at parameters
    5.8 and 4.2 (both within [0, 10]). -/
def cylB_inside : Cylinder :=
  mkCylinder ((-0.4 : ℝ), -5, 0) ((0 : ℝ), 1, 0) 1 10

/-- A z-axis cylinder whose origin is off the z-axis (x component 1). -/
def cylOff : Cylinder := mkCylinder ((1 : ℝ), 0, 0) ((0 : ℝ), 0, 1) 1 1

/-- A z-axis unit cylinder at the world origin. -/
def cylUnit : Cylinder := mkCylinder ((0 : ℝ), 0, 0) ((0 : ℝ), 0, 1) 1 1

/-- Projection: mkCylinder keeps the origin. -/
@[simp] lemma mk_o (o a : V3) (r l : ℝ) : (mkCylinder o a r l).o = o := rfl

/-- Projection: the stored axis is the normalized input axis. -/
@[simp] lemma mk_a (o a : V3) (r l : ℝ) :
    (mkCylinder o a r l).a = normalize a := rfl

/-- Projection: mkCylinder keeps the radius. -/
@[simp] lemma mk_r (o a : V3) (r l : ℝ) : (mkCylinder o a r l).r = r := rfl

/-- Projection: mkCylinder keeps the length. -/
@[simp] lemma mk_len (o a : V3) (r l : ℝ) : (mkCylinder o a r l).l = l := rfl

/-- Projection: first frame normal as constructed. -/
@[simp] lemma mk_n0 (o a : V3) (r l : ℝ) :
    (mkCylinder o a r l).n0 = normalize (gen_normal (normalize a)) := rfl

/-- Projection: second frame normal as constructed. -/
@[simp] lemma mk_n1 (o a : V3) (r l : ℝ) :
    (mkCylinder o a r l).n1 =
      normalize (cross (normalize a) (normalize (gen_normal (normalize a)))) := rfl

lemma dot_comm (u v : V3) : dot u v = dot v u := by unfold dot; ring

lemma dot_self_nonneg (v : V3) : 0 ≤ dot v v := by
  unfold dot
  nlinarith [mul_self_nonneg v.1, mul_self_nonneg v.2.1, mul_self_nonneg v.2.2]

lemma dot_self_eq_zero (v : V3) : dot v v = 0 ↔ v = 0 := by
  obtain ⟨x, y, z⟩ := v
  unfold dot
  simp only [Prod.mk_eq_zero]
  constructor
  · intro h
    have hx : x * x = 0 := by nlinarith [mul_self_nonneg x, mul_self_nonneg y, mul_self_nonneg z]
    have hy : y * y = 0 := by nlinarith [mul_self_nonneg x, mul_self_nonneg y, mul_self_nonneg z]
    have hz : z * z = 0 := by nlinarith [mul_self_nonneg x, mul_self_nonneg y, mul_self_nonneg z]
    exact ⟨mul_self_eq_zero.mp hx, mul_self_eq_zero.mp hy, mul_self_eq_zero.mp hz⟩
  · rintro ⟨h1, h2, h3⟩
    rw [h1, h2, h3]
    ring

lemma dot_self_pos (v : V3) (h : v ≠ 0) : 0 < dot v v :=
  lt_of_le_of_ne (dot_self_nonneg v) fun he => h ((dot_self_eq_zero v).mp he.symm)

lemma vnorm_pos (v : V3) (h : v ≠ 0) : 0 < vnorm v :=
  Real.sqrt_pos.mpr (dot_self_pos v h)

lemma dot_scale_left (v w : V3) (k : ℝ) : dot (scale v k) w = k * dot v w := by
  unfold dot scale; ring

lemma dot_scale_right (v w : V3) (k : ℝ) : dot v (scale w k) = k * dot v w := by
  unfold dot scale; ring

lemma dot_normalize_self (v : V3) (h : v ≠ 0) :
    dot (normalize v) (normalize v) = 1 := by
  have hd : 0 < dot v v := dot_self_pos v h
  have hs : 0 < Real.sqrt (dot v v) := Real.sqrt_pos.mpr hd
  have h2 : Real.sqrt (dot v v) * Real.sqrt (dot v v) = dot v v :=
    Real.mul_self_sqrt hd.le
  unfold normalize
  rw [dot_scale_left, dot_scale_right]
  field_simp

lemma normalize_ne_zero (v : V3) (h : v ≠ 0) : normalize v ≠ 0 := by
  intro h0
  have h1 := dot_normalize_self v h
  rw [h0] at h1
  simp [dot] at h1

lemma dot_normalize_left (v w : V3) :
    dot (normalize v) w = (1 / Real.sqrt (dot v v)) * dot v w := by
  unfold normalize
  rw [dot_scale_left]

lemma cross_dot_self (u v : V3) :
    dot (cross u v) (cross u v) = dot u u * dot v v - dot u v * dot u v := by
  unfold dot cross; ring

lemma dot_cross_left (u v : V3) : dot (cross u v) u = 0 := by
  unfold dot cross; ring

lemma dot_cross_right (u v : V3) : dot (cross u v) v = 0 := by
  unfold dot cross; ring

lemma gen_normal_dot (v : V3) : dot (gen_normal v) v = 0 := by
  unfold gen_normal
  split_ifs with h1 h2 h3
  · simp [dot, h1]
  · simp [dot, h2]
  · simp [dot, h3]
  · simp [dot]
    ring

lemma gen_normal_ne_zero (v : V3) : gen_normal v ≠ 0 := by
  unfold gen_normal
  split_ifs with h1 h2 h3
  · simp [Prod.mk_eq_zero]
  · simp [Prod.mk_eq_zero]
  · simp [Prod.mk_eq_zero]
  · simp [Prod.mk_eq_zero, h3]

lemma normalize_of_unit (v : V3) (h : dot v v = 1) : normalize v = v := by
  unfold normalize
  rw [h, Real.sqrt_one]
  unfold scale
  simp

/-- Frame of a cylinder built with axis input (0,0,1): the source's
    orthogonal-vector rule yields n0 = (1,0,0) and n1 = (0,1,0). -/
lemma frame_z (o : V3) (r l : ℝ) :
    (mkCylinder o ((0 : ℝ), 0, 1) r l).a = ((0 : ℝ), 0, 1) ∧
    (mkCylinder o ((0 : ℝ), 0, 1) r l).n0 = ((1 : ℝ), 0, 0) ∧
    (mkCylinder o ((0 : ℝ), 0, 1) r l).n1 = ((0 : ℝ), 1, 0) := by
  have ha : normalize ((0 : ℝ), 0, 1) = ((0 : ℝ), 0, 1) :=
    normalize_of_unit _ (by unfold dot; norm_num)
  have hg : gen_normal ((0 : ℝ), 0, 1) = ((1 : ℝ), 0, 0) := by
    unfold gen_normal; norm_num
  have hn0 : normalize ((1 : ℝ), 0, 0) = ((1 : ℝ), 0, 0) :=
    normalize_of_unit _ (by unfold dot; norm_num)
  have hc : cross ((0 : ℝ), 0, 1) ((1 : ℝ), 0, 0) = ((0 : ℝ), 1, 0) := by
    unfold cross; norm_num
  have hn1 : normalize ((0 : ℝ), 1, 0) = ((0 : ℝ), 1, 0) :=
    normalize_of_unit _ (by unfold dot; norm_num)
  refine ⟨?_, ?_, ?_⟩
  · rw [mk_a, ha]
  · rw [mk_n0, ha, hg, hn0]
  · rw [mk_n1, ha, hg, hn0, hc, hn1]

/-- Frame of a cylinder built with axis input (0,1,0): n0 = (1,0,0)
    (the x-coordinate-zero branch fires first) and n1 = (0,0,-1). -/
lemma frame_y (o : V3) (r l : ℝ) :
    (mkCylinder o ((0 : ℝ), 1, 0) r l).a = ((0 : ℝ), 1, 0) ∧
    (mkCylinder o ((0 : ℝ), 1, 0) r l).n0 = ((1 : ℝ), 0, 0) ∧
    (mkCylinder o ((0 : ℝ), 1, 0) r l).n1 = ((0 : ℝ), 0, -1) := by
  have ha : normalize ((0 : ℝ), 1, 0) = ((0 : ℝ), 1, 0) :=
    normalize_of_unit _ (by unfold dot; norm_num)
  have hg : gen_normal ((0 : ℝ), 1, 0) = ((1 : ℝ), 0, 0) := by
    unfold gen_normal; norm_num
  have hn0 : normalize ((1 : ℝ), 0, 0) = ((1 : ℝ), 0, 0) :=
    normalize_of_unit _ (by unfold dot; norm_num)
  have hc : cross ((0 : ℝ), 1, 0) ((1 : ℝ), 0, 0) = ((0 : ℝ), 0, -1) := by
    unfold cross; norm_num
  have hn1 : normalize ((0 : ℝ), 0, -1) = ((0 : ℝ), 0, -1) :=
    normalize_of_unit _ (by unfold dot; norm_num)
  refine ⟨?_, ?_, ?_⟩
  · rw [mk_a, ha]
  · rw [mk_n0, ha, hg, hn0]
  · rw [mk_n1, ha, hg, hn0, hc, hn1]

lemma quadratic_inf_of (a b c : ℝ) (ha : a = 0) (hb : b = 0) (hc : c = 0) :
    quadratic a b c = QResult.inf := by
  unfold quadratic
  rw [if_pos ha, if_pos hb, if_pos hc]

lemma quadratic_inv_of (a b c : ℝ) (ha : a = 0) (hb : b = 0) (hc : c ≠ 0) :
    quadratic a b c = QResult.inv := by
  unfold quadratic
  rw [if_pos ha, if_pos hb, if_neg hc]

lemma quadratic_lin0_of (a b c : ℝ) (ha : a = 0) (hb : b ≠ 0) (hc : c = 0) :
    quadratic a b c = QResult.one 0 := by
  unfold quadratic
  rw [if_pos ha, if_neg hb, if_pos hc]

lemma quadratic_lin_of (a b c : ℝ) (ha : a = 0) (hb : b ≠ 0) (hc : c ≠ 0) :
    quadratic a b c = QResult.one (-c / b) := by
  unfold quadratic
  rw [if_pos ha, if_neg hb, if_neg hc]

lemma quadratic_repeat_of (a b c : ℝ) (ha : a ≠ 0) (hd : b * b - 4 * a * c = 0) :
    quadratic a b c = QResult.one (-b / (2 * a)) := by
  unfold quadratic
  rw [if_neg ha, if_pos hd]

lemma quadratic_zero_of (a b c : ℝ) (ha : a ≠ 0) (hd : b * b - 4 * a * c < 0) :
    quadratic a b c = QResult.zero := by
  unfold quadratic
  rw [if_neg ha, if_neg (ne_of_lt hd), if_pos hd]

lemma quadratic_two_of (a b c : ℝ) (ha : a ≠ 0) (hd : 0 < b * b - 4 * a * c) :
    quadratic a b c =
      QResult.two ((-b + Real.sqrt (b * b - 4 * a * c)) / (2 * a))
        ((-b - Real.sqrt (b * b - 4 * a * c)) / (2 * a)) := by
  unfold quadratic
  rw [if_neg ha, if_neg (ne_of_gt hd), if_neg (not_lt.mpr hd.le)]

/-- Sqrt of a concrete square. -/
lemma sqrt_eval (x y : ℝ) (hy : 0 ≤ y) (h : x = y ^ 2) : Real.sqrt x = y := by
  rw [h, Real.sqrt_sq hy]

@[simp] lemma roots_inf : roots QResult.inf = [] := rfl

@[simp] lemma roots_inv : roots QResult.inv = [] := rfl

@[simp] lemma roots_zero : roots QResult.zero = [] := rfl

@[simp] lemma roots_one (t : ℝ) : roots (QResult.one t) = [t] := rfl

@[simp] lemma roots_two (t1 t2 : ℝ) : roots (QResult.two t1 t2) = [t1, t2] := rfl

/-- Every root parameter returned by the solver satisfies the equation. -/
lemma quadratic_root_sat (a b c t : ℝ) (h : t ∈ roots (quadratic a b c)) :
    a * t ^ 2 + b * t + c = 0 := by
  by_cases ha : a = 0
  · by_cases hb : b = 0
    · by_cases hc : c = 0
      · rw [quadratic_inf_of a b c ha hb hc] at h
        simp at h
      · rw [quadratic_inv_of a b c ha hb hc] at h
        simp at h
    · by_cases hc : c = 0
      · rw [quadratic_lin0_of a b c ha hb hc] at h
        simp at h
        rw [h, ha, hc]
        ring
      · rw [quadratic_lin_of a b c ha hb hc] at h
        simp at h
        rw [h, ha]
        field_simp
        ring
  · rcases lt_trichotomy (b * b - 4 * a * c) 0 with hd | hd | hd
    · rw [quadratic_zero_of a b c ha hd] at h
      simp at h
    · rw [quadratic_repeat_of a b c ha hd] at h
      simp at h
      rw [h]
      field_simp
      linear_combination (-2 * a ^ 2) * hd
    · rw [quadratic_two_of a b c ha hd] at h
      simp at h
      have hs2 : Real.sqrt (b * b - 4 * a * c) ^ 2 = b * b - 4 * a * c :=
        Real.sq_sqrt hd.le
      rcases h with h | h <;> rw [h] <;> field_simp <;>
        linear_combination (2 * a ^ 2) * hs2

/-- The intersection quadratic of a line (u, v) against a z-axis-framed
    cylinder, written out with the source's coefficient expressions. -/
lemma intersect_z (o : V3) (r l : ℝ) (u v : V3) :
    intersect_line (mkCylinder o ((0 : ℝ), 0, 1) r l) (u, v) =
      quadratic (v.1 * v.1 + v.2.1 * v.2.1)
        (2 * (u.1 * v.1 + u.2.1 * v.2.1))
        (u.1 * u.1 + u.2.1 * u.2.1 - r * r) := by
  obtain ⟨hA, h0, h1⟩ := frame_z o r l
  unfold intersect_line
  rw [hA, h0, h1, mk_r]
  simp [dot]

/-- Surface point of generator 0: the angle is 0, so the point is
    origin + radius · n0. -/
lemma genPoint_zero (c : Cylinder) :
    genPoint c 0 =
      (c.o.1 + c.r * c.n0.1, c.o.2.1 + c.r * c.n0.2.1, c.o.2.2 + c.r * c.n0.2.2) := by
  unfold genPoint
  norm_num

lemma normalize_dot_left_zero (v w : V3) (h : dot v w = 0) :
    dot (normalize v) w = 0 := by
  unfold normalize
  rw [dot_scale_left, h, mul_zero]

lemma normalize_dot_right_zero (v w : V3) (h : dot v w = 0) :
    dot v (normalize w) = 0 := by
  unfold normalize
  rw [dot_scale_right, h, mul_zero]

lemma ne_zero_of_dot_one (v : V3) (h : dot v v = 1) : v ≠ 0 := by
  intro h0
  rw [h0] at h
  simp [dot] at h

/-- The cross product of the normalized axis with the first frame normal
    has unit self-dot (Lagrange identity on an orthonormal pair). -/
lemma cross_frame_dot (a : V3) (h : a ≠ 0) :
    dot (cross (normalize a) (normalize (gen_normal (normalize a))))
      (cross (normalize a) (normalize (gen_normal (normalize a)))) = 1 := by
  have hAA := dot_normalize_self a h
  have hg := gen_normal_ne_zero (normalize a)
  have hN00 := dot_normalize_self _ hg
  have hAN0 : dot (normalize a) (normalize (gen_normal (normalize a))) = 0 := by
    apply normalize_dot_right_zero
    rw [dot_comm]
    exact gen_normal_dot (normalize a)
  rw [cross_dot_self, hAA, hN00, hAN0]
  ring

lemma cross_frame_ne_zero (a : V3) (h : a ≠ 0) :
    cross (normalize a) (normalize (gen_normal (normalize a))) ≠ 0 :=
  ne_zero_of_dot_one _ (cross_frame_dot a h)

/-- C9: `gen_normal` returns a vector orthogonal to its input — the dot
    product is exactly zero — and it is chosen by the stated deterministic
    rule: (1,0,0) if v.x = 0, else (0,1,0) if v.y = 0, else (0,0,1) if
    v.z = 0 (preference order x, then y, then z), else (0, v.z, -v.y). -/
theorem C9_gen_normal_rule : ∀ v : V3,
    dot (gen_normal v) v = 0 ∧
    gen_normal v =
      (if v.1 = 0 then ((1 : ℝ), 0, 0)
       else if v.2.1 = 0 then ((0 : ℝ), 1, 0)
       else if v.2.2 = 0 then ((0 : ℝ), 0, 1)
       else ((0 : ℝ), v.2.2, -v.2.1)) :=
  fun v => ⟨gen_normal_dot v, rfl⟩

/-- C4: the quadratic solver classifies exactly as specified — AllReals iff
    a=0∧b=0∧c=0; NoSolution iff a=0∧b=0∧c≠0; OneRoot exactly in the linear
    case (root 0 when c=0, else -c/b) or the repeated-root case (root
    -b/(2a) when d=0); NoRealRoots iff a≠0∧d<0; TwoRoots iff a≠0∧d>0 with
    roots (-b±√d)/(2a) — and every returned root satisfies the equation. -/
theorem C4_quadratic_spec : ∀ a b c : ℝ,
    (quadratic a b c = QResult.inf ↔ a = 0 ∧ b = 0 ∧ c = 0) ∧
    (quadratic a b c = QResult.inv ↔ a = 0 ∧ b = 0 ∧ c ≠ 0) ∧
    (∀ t, quadratic a b c = QResult.one t ↔
      ((a = 0 ∧ b ≠ 0 ∧ ((c = 0 ∧ t = 0) ∨ (c ≠ 0 ∧ t = -c / b))) ∨
       (a ≠ 0 ∧ b * b - 4 * a * c = 0 ∧ t = -b / (2 * a)))) ∧
    (quadratic a b c = QResult.zero ↔ a ≠ 0 ∧ b * b - 4 * a * c < 0) ∧
    (∀ t1 t2, quadratic a b c = QResult.two t1 t2 ↔
      (a ≠ 0 ∧ 0 < b * b - 4 * a * c ∧
       t1 = (-b + Real.sqrt (b * b - 4 * a * c)) / (2 * a) ∧
       t2 = (-b - Real.sqrt (b * b - 4 * a * c)) / (2 * a))) ∧
    (∀ t, t ∈ roots (quadratic a b c) → a * t ^ 2 + b * t + c = 0) := by
  intro a b c
  refine ⟨?_, ?_, ?_, ?_, ?_, fun t => quadratic_root_sat a b c t⟩
  all_goals
    by_cases ha : a = 0
  case pos | pos | pos | pos | pos =>
    by_cases hb : b = 0
    case pos =>
      by_cases hc : c = 0
      · simp [ha, hb, hc, quadratic_inf_of 0 0 0 rfl rfl rfl]
      · simp [ha, hb, hc, quadratic_inv_of 0 0 c rfl rfl hc]
    case neg =>
      by_cases hc : c = 0
      · simp [ha, hb, hc, quadratic_lin0_of 0 b 0 rfl hb rfl, eq_comm]
      · simp [ha, hb, hc, quadratic_lin_of 0 b c rfl hb hc, eq_comm]
  case neg | neg | neg | neg | neg =>
    rcases lt_trichotomy (b * b - 4 * a * c) 0 with hd | hd | hd
    · simp [quadratic_zero_of a b c ha hd, ha, hd, lt_asymm hd, ne_of_lt hd]
    · simp [quadratic_repeat_of a b c ha hd, ha, hd, eq_comm]
    · simp [quadratic_two_of a b c ha hd, ha, hd, lt_asymm hd, ne_of_gt hd, eq_comm]

/-- C4 witness: at (a,b,c) = (0,2,-4) the solver returns OneRoot 2 and the
    root satisfies the equation. -/
theorem C4_quadratic_spec_witness :
    (2 : ℝ) ∈ roots (quadratic 0 2 (-4)) ∧
    (0 : ℝ) * (2 : ℝ) ^ 2 + 2 * 2 + (-4) = 0 := by
  have hm : (2 : ℝ) ∈ roots (quadratic 0 2 (-4)) := by
    rw [quadratic_lin_of 0 2 (-4) rfl (by norm_num) (by norm_num)]
    norm_num
  exact ⟨hm, (C4_quadratic_spec 0 2 (-4)).2.2.2.2.2 2 hm⟩

/-- C6: for every cylinder built from a nonzero axis input, the derived
    triple {axis, n0, n1} is a right-handed orthonormal frame: each vector
    has unit norm, the pairwise dot products vanish, and n1 equals
    normalize(axis × n0); the frame is fixed at construction (mkCylinder
    is a pure function of its inputs). -/
theorem C6_frame_orthonormal (o ain : V3) (r l : ℝ) (h : ain ≠ 0) :
    vnorm (mkCylinder o ain r l).a = 1 ∧
    vnorm (mkCylinder o ain r l).n0 = 1 ∧
    vnorm (mkCylinder o ain r l).n1 = 1 ∧
    dot (mkCylinder o ain r l).a (mkCylinder o ain r l).n0 = 0 ∧
    dot (mkCylinder o ain r l).a (mkCylinder o ain r l).n1 = 0 ∧
    dot (mkCylinder o ain r l).n0 (mkCylinder o ain r l).n1 = 0 ∧
    (mkCylinder o ain r l).n1 =
      normalize (cross (mkCylinder o ain r l).a (mkCylinder o ain r l).n0) := by
  have hAA : dot (normalize ain) (normalize ain) = 1 := dot_normalize_self ain h
  have hg : gen_normal (normalize ain) ≠ 0 := gen_normal_ne_zero (normalize ain)
  have hN00 : dot (normalize (gen_normal (normalize ain)))
      (normalize (gen_normal (normalize ain))) = 1 := dot_normalize_self _ hg
  have hAN0 : dot (normalize ain) (normalize (gen_normal (normalize ain))) = 0 := by
    apply normalize_dot_right_zero
    rw [dot_comm]
    exact gen_normal_dot (normalize ain)
  have hCnz := cross_frame_ne_zero ain h
  have hN11 : dot (normalize (cross (normalize ain) (normalize (gen_normal (normalize ain)))))
      (normalize (cross (normalize ain) (normalize (gen_normal (normalize ain))))) = 1 :=
    dot_normalize_self _ hCnz
  have hAN1 : dot (normalize ain)
      (normalize (cross (normalize ain) (normalize (gen_normal (normalize ain))))) = 0 := by
    apply normalize_dot_right_zero
    rw [dot_comm]
    exact dot_cross_left _ _
  have hN0N1 : dot (normalize (gen_normal (normalize ain)))
      (normalize (cross (normalize ain) (normalize (gen_normal (normalize ain))))) = 0 := by
    apply normalize_dot_right_zero
    rw [dot_comm]
    exact dot_cross_right _ _
  refine ⟨?_, ?_, ?_, ?_, ?_, ?_, rfl⟩
  · rw [mk_a]
    unfold vnorm
    rw [hAA, Real.sqrt_one]
  · rw [mk_n0]
    unfold vnorm
    rw [hN00, Real.sqrt_one]
  · rw [mk_n1]
    unfold vnorm
    rw [hN11, Real.sqrt_one]
  · rw [mk_a, mk_n0]
    exact hAN0
  · rw [mk_a, mk_n1]
    exact hAN1
  · rw [mk_n0, mk_n1]
    exact hN0N1

/-- C6 witness: the frame of the unit z-axis cylinder. -/
theorem C6_frame_orthonormal_witness :
    (((0 : ℝ), 0, 1) : V3) ≠ 0 ∧
    (vnorm (mkCylinder ((0 : ℝ), 0, 0) ((0 : ℝ), 0, 1) 1 1).a = 1 ∧
     vnorm (mkCylinder ((0 : ℝ), 0, 0) ((0 : ℝ), 0, 1) 1 1).n0 = 1 ∧
     vnorm (mkCylinder ((0 : ℝ), 0, 0) ((0 : ℝ), 0, 1) 1 1).n1 = 1 ∧
     dot (mkCylinder ((0 : ℝ), 0, 0) ((0 : ℝ), 0, 1) 1 1).a
       (mkCylinder ((0 : ℝ), 0, 0) ((0 : ℝ), 0, 1) 1 1).n0 = 0 ∧
     dot (mkCylinder ((0 : ℝ), 0, 0) ((0 : ℝ), 0, 1) 1 1).a
       (mkCylinder ((0 : ℝ), 0, 0) ((0 : ℝ), 0, 1) 1 1).n1 = 0 ∧
     dot (mkCylinder ((0 : ℝ), 0, 0) ((0 : ℝ), 0, 1) 1 1).n0
       (mkCylinder ((0 : ℝ), 0, 0) ((0 : ℝ), 0, 1) 1 1).n1 = 0 ∧
     (mkCylinder ((0 : ℝ), 0, 0) ((0 : ℝ), 0, 1) 1 1).n1 =
       normalize (cross (mkCylinder ((0 : ℝ), 0, 0) ((0 : ℝ), 0, 1) 1 1).a
         (mkCylinder ((0 : ℝ), 0, 0) ((0 : ℝ), 0, 1) 1 1).n0)) :=
  ⟨by simp [Prod.mk_eq_zero],
   C6_frame_orthonormal ((0 : ℝ), 0, 0) ((0 : ℝ), 0, 1) 1 1 (by simp [Prod.mk_eq_zero])⟩

/-- C10: `gen_normal` never returns the zero vector (each branch returns a
    vector with a nonzero component), so for a nonzero axis input all three
    `normalize` calls in cylinder construction divide by a strictly
    positive norm. -/
theorem C10_normalize_safe :
    (∀ v : V3, gen_normal v ≠ 0) ∧
    (∀ a : V3, a ≠ 0 →
      0 < vnorm a ∧
      0 < vnorm (gen_normal (normalize a)) ∧
      0 < vnorm (cross (normalize a) (normalize (gen_normal (normalize a))))) :=
  ⟨gen_normal_ne_zero, fun a h =>
    ⟨vnorm_pos a h, vnorm_pos _ (gen_normal_ne_zero _),
     vnorm_pos _ (cross_frame_ne_zero a h)⟩⟩

/-- C10 witness at axis input (0,0,1). -/
theorem C10_normalize_safe_witness :
    (((0 : ℝ), 0, 1) : V3) ≠ 0 ∧
    (0 < vnorm (((0 : ℝ), 0, 1) : V3) ∧
     0 < vnorm (gen_normal (normalize ((0 : ℝ), 0, 1))) ∧
     0 < vnorm (cross (normalize ((0 : ℝ), 0, 1))
       (normalize (gen_normal (normalize ((0 : ℝ), 0, 1)))))) :=
  ⟨by simp [Prod.mk_eq_zero],
   C10_normalize_safe.2 ((0 : ℝ), 0, 1) (by simp [Prod.mk_eq_zero])⟩

/-- C7: generator-line sampling yields exactly NDIVS lines in index order;
    line i starts at origin + r·cos(2πi/N)·n0 + r·sin(2πi/N)·n1 and runs
    along the cylinder's (normalized) axis. As a pure function it is
    deterministic and has no side effects. -/
theorem C7_gen_lines (c : Cylinder) :
    (gen_lines c).length = NDIVS ∧
    ∀ i, i < NDIVS →
      (gen_lines c).get? i =
        some (vadd (vadd c.o
            (scale c.n0 (c.r * Real.cos (2 * Real.pi * (i : ℝ) / (NDIVS : ℝ)))))
            (scale c.n1 (c.r * Real.sin (2 * Real.pi * (i : ℝ) / (NDIVS : ℝ)))),
          c.a) := by
  constructor
  · unfold gen_lines
    rw [List.length_map, List.length_range]
  · intro i hi
    unfold gen_lines
    rw [List.get?_eq_getElem?, List.getElem?_map, List.getElem?_range hi]
    refine congrArg some ?_
    unfold genLine genPoint vadd scale
    simp only [Prod.mk.injEq]
    refine ⟨⟨?_, ?_, ?_⟩, trivial⟩ <;> ring

/-- C7 witness at the unit cylinder and generator index 0. -/
theorem C7_gen_lines_witness :
    0 < NDIVS ∧
    (gen_lines cylUnit).get? 0 =
      some (vadd (vadd cylUnit.o
          (scale cylUnit.n0
            (cylUnit.r * Real.cos (2 * Real.pi * ((0 : ℕ) : ℝ) / (NDIVS : ℝ)))))
          (scale cylUnit.n1
            (cylUnit.r * Real.sin (2 * Real.pi * ((0 : ℕ) : ℝ) / (NDIVS : ℝ)))),
        cylUnit.a) :=
  ⟨by norm_num [NDIVS], (C7_gen_lines cylUnit).2 0 (by norm_num [NDIVS])⟩

@[simp] lemma segsFor_inf (x l : ℝ) : segsFor QResult.inf x l = [] := rfl

@[simp] lemma segsFor_inv (x l : ℝ) : segsFor QResult.inv x l = [] := rfl

@[simp] lemma segsFor_zero (x l : ℝ) :
    segsFor QResult.zero x l = [((x, (0 : ℝ)), (x, l))] := rfl

@[simp] lemma segsFor_one (t x l : ℝ) :
    segsFor (QResult.one t) x l = [((x, (0 : ℝ)), (x, l))] := rfl

@[simp] lemma segsFor_two (t1 t2 x l : ℝ) :
    segsFor (QResult.two t1 t2) x l =
      if t1 > t2 then [((x, (0 : ℝ)), (x, t2)), ((x, t1), (x, l))]
      else [((x, (0 : ℝ)), (x, t1)), ((x, t2), (x, l))] := rfl

lemma segsFor_length (res : QResult) (x l : ℝ) : (segsFor res x l).length ≤ 2 := by
  cases res with
  | inf => simp
  | inv => simp
  | zero => simp
  | one t => simp
  | two t1 t2 =>
      rw [segsFor_two]
      split_ifs <;> simp

lemma segsFor_vertical (res : QResult) (x l : ℝ) (s : Seg)
    (hs : s ∈ segsFor res x l) : s.1.1 = x ∧ s.2.1 = x := by
  cases res with
  | inf => simp at hs
  | inv => simp at hs
  | zero =>
      simp at hs
      rw [hs]
      exact ⟨rfl, rfl⟩
  | one t =>
      simp at hs
      rw [hs]
      exact ⟨rfl, rfl⟩
  | two t1 t2 =>
      rw [segsFor_two] at hs
      split_ifs at hs <;> simp at hs <;>
        rcases hs with hs | hs <;> rw [hs] <;> exact ⟨rfl, rfl⟩

/-- C8: the emitted template is exactly one baseline segment from (0,0)
    to (2π·r₁, 0) followed by the per-generator columns; the baseline
    occurs nowhere among the columns; and for every generator index
    i < NDIVS the column at x_i = i·(2π·r₁)/NDIVS holds at most two
    segments, every one of them vertical at x = x_i. -/
theorem C8_emission (c0 c1 : Cylinder) (hr : 0 < c1.r) :
    gen_dxf c0 c1 =
      (((0 : ℝ), (0 : ℝ)), (2 * Real.pi * c1.r, (0 : ℝ))) :: genBody c0 c1 ∧
    (((0 : ℝ), (0 : ℝ)), (2 * Real.pi * c1.r, (0 : ℝ))) ∉ genBody c0 c1 ∧
    (∀ i, i < NDIVS →
      (segsFor (intersect_line c0 (genLine c1 i))
        ((i : ℝ) * (2 * Real.pi * c1.r) / (NDIVS : ℝ)) c1.l).length ≤ 2) ∧
    (∀ i, i < NDIVS → ∀ s,
      s ∈ segsFor (intersect_line c0 (genLine c1 i))
        ((i : ℝ) * (2 * Real.pi * c1.r) / (NDIVS : ℝ)) c1.l →
      s.1.1 = (i : ℝ) * (2 * Real.pi * c1.r) / (NDIVS : ℝ) ∧
      s.2.1 = (i : ℝ) * (2 * Real.pi * c1.r) / (NDIVS : ℝ)) := by
  refine ⟨rfl, ?_, fun i _ => segsFor_length _ _ _,
    fun i _ s hs => segsFor_vertical _ _ _ s hs⟩
  intro hmem
  unfold genBody at hmem
  rw [List.mem_flatMap] at hmem
  obtain ⟨i, _, hsin⟩ := hmem
  have hv := segsFor_vertical _ _ _ _ hsin
  have h1 : (0 : ℝ) = (i : ℝ) * (2 * Real.pi * c1.r) / (NDIVS : ℝ) := hv.1
  have h2 : 2 * Real.pi * c1.r = (i : ℝ) * (2 * Real.pi * c1.r) / (NDIVS : ℝ) := hv.2
  have hpos : 0 < 2 * Real.pi * c1.r := by nlinarith [Real.pi_pos, hr]
  exact absurd (h2.trans h1.symm) (ne_of_gt hpos)

/-- C8 witness at a pair of unit cylinders. -/
theorem C8_emission_witness :
    0 < cylUnit.r ∧
    (gen_dxf cylUnit cylUnit =
      (((0 : ℝ), (0 : ℝ)), (2 * Real.pi * cylUnit.r, (0 : ℝ))) ::
        genBody cylUnit cylUnit ∧
    (((0 : ℝ), (0 : ℝ)), (2 * Real.pi * cylUnit.r, (0 : ℝ))) ∉
      genBody cylUnit cylUnit ∧
    (∀ i, i < NDIVS →
      (segsFor (intersect_line cylUnit (genLine cylUnit i))
        ((i : ℝ) * (2 * Real.pi * cylUnit.r) / (NDIVS : ℝ)) cylUnit.l).length ≤ 2) ∧
    (∀ i, i < NDIVS → ∀ s,
      s ∈ segsFor (intersect_line cylUnit (genLine cylUnit i))
        ((i : ℝ) * (2 * Real.pi * cylUnit.r) / (NDIVS : ℝ)) cylUnit.l →
      s.1.1 = (i : ℝ) * (2 * Real.pi * cylUnit.r) / (NDIVS : ℝ) ∧
      s.2.1 = (i : ℝ) * (2 * Real.pi * cylUnit.r) / (NDIVS : ℝ))) :=
  ⟨by simp [cylUnit], C8_emission cylUnit cylUnit (by simp [cylUnit])⟩

/-- Generator 0 of a z-axis cylinder starts at origin + r·(1,0,0). -/
lemma genLine_zero_z (o : V3) (r l : ℝ) :
    genLine (mkCylinder o ((0 : ℝ), 0, 1) r l) 0 =
      ((o.1 + r, o.2.1, o.2.2), ((0 : ℝ), 0, 1)) := by
  obtain ⟨hA, h0, _⟩ := frame_z o r l
  unfold genLine
  rw [genPoint_zero, hA, h0, mk_o, mk_r]
  norm_num

/-- Generator 0 of a y-axis cylinder also starts at origin + r·(1,0,0). -/
lemma genLine_zero_y (o : V3) (r l : ℝ) :
    genLine (mkCylinder o ((0 : ℝ), 1, 0) r l) 0 =
      ((o.1 + r, o.2.1, o.2.2), ((0 : ℝ), 1, 0)) := by
  obtain ⟨hA, h0, _⟩ := frame_y o r l
  unfold genLine
  rw [genPoint_zero, hA, h0, mk_o, mk_r]
  norm_num

/-- In the parallel scenario, generator 0 of B is the line through
    (11,0,0) along (0,0,1); against A it produces a = 0, b = 0,
    c = 120 ≠ 0, hence the 'inv' (NoSolution) tag. -/
lemma par0_inv : intersect_line cylA_par (genLine cylB_par 0) = QResult.inv := by
  unfold cylB_par
  rw [genLine_zero_z]
  unfold cylA_par
  rw [intersect_z]
  norm_num
  exact quadratic_inv_of 0 0 120 rfl rfl (by norm_num)

/-- C2: in the parallel scenario, generator 0 of B classifies against A
    as 'inv' (NoSolution), yet the emission step draws no segment at all
    for it — the source's if/elif chain has no branch for 'inv', so the
    claimed single full-length segment is never produced. -/
theorem C2_inv_dropped :
    intersect_line cylA_par (genLine cylB_par 0) = QResult.inv ∧
    segsFor (intersect_line cylA_par (genLine cylB_par 0)) 0 cylB_par.l = [] := by
  refine ⟨par0_inv, ?_⟩
  rw [par0_inv]
  rfl

/-- C5 counterexample: in the parallel non-overlapping scenario, the
    generator-0 intersection is NoSolution ('inv'), not NoRealRoots ('0'),
    and the emitted column is empty, not a full-length segment. -/
theorem C5_counterexample :
    intersect_line cylA_par (genLine cylB_par 0) ≠ QResult.zero ∧
    intersect_line cylA_par (genLine cylB_par 0) = QResult.inv ∧
    segsFor (intersect_line cylA_par (genLine cylB_par 0)) 0 cylB_par.l ≠
      [(((0 : ℝ), (0 : ℝ)), ((0 : ℝ), cylB_par.l))] := by
  refine ⟨?_, par0_inv, ?_⟩
  · rw [par0_inv]
    exact fun h => QResult.noConfusion h
  · rw [par0_inv]
    simp

/-- C5 amended: for z-axis parallel cylinders of equal radius r > 0 whose
    origins are separated in the xy-plane by more than 2r, every generator
    of B classifies against A as NoSolution ('inv') — the direction is
    parallel to the axis, so a = b = 0 and c > 0 — and consequently the
    emission draws no segment at all for that generator column. -/
theorem C5_parallel_amended (bx bb bz az r l : ℝ) (i : ℕ)
    (hr : 0 < r) (hsep : (2 * r) ^ 2 < bx ^ 2 + bb ^ 2) :
    intersect_line (mkCylinder ((0 : ℝ), 0, az) ((0 : ℝ), 0, 1) r l)
      (genLine (mkCylinder ((bx, bb, bz) : V3) ((0 : ℝ), 0, 1) r l) i) =
      QResult.inv ∧
    segsFor
      (intersect_line (mkCylinder ((0 : ℝ), 0, az) ((0 : ℝ), 0, 1) r l)
        (genLine (mkCylinder ((bx, bb, bz) : V3) ((0 : ℝ), 0, 1) r l) i))
      ((i : ℝ) * (2 * Real.pi * r) / (NDIVS : ℝ)) l = [] := by
  obtain ⟨hA, h0, h1⟩ := frame_z ((bx, bb, bz) : V3) r l
  have hline : genLine (mkCylinder ((bx, bb, bz) : V3) ((0 : ℝ), 0, 1) r l) i =
      ((bx + r * Real.cos (2 * Real.pi * (i : ℝ) / (NDIVS : ℝ)),
        bb + r * Real.sin (2 * Real.pi * (i : ℝ) / (NDIVS : ℝ)), bz),
       ((0 : ℝ), 0, 1)) := by
    unfold genLine genPoint
    rw [hA, h0, h1, mk_o, mk_r]
    norm_num
  have heval : intersect_line (mkCylinder ((0 : ℝ), 0, az) ((0 : ℝ), 0, 1) r l)
      (genLine (mkCylinder ((bx, bb, bz) : V3) ((0 : ℝ), 0, 1) r l) i) =
      QResult.inv := by
    rw [hline, intersect_z]
    have hcpos : 0 <
        (bx + r * Real.cos (2 * Real.pi * (i : ℝ) / (NDIVS : ℝ))) *
          (bx + r * Real.cos (2 * Real.pi * (i : ℝ) / (NDIVS : ℝ))) +
        (bb + r * Real.sin (2 * Real.pi * (i : ℝ) / (NDIVS : ℝ))) *
          (bb + r * Real.sin (2 * Real.pi * (i : ℝ) / (NDIVS : ℝ))) - r * r := by
      nlinarith [Real.sin_sq_add_cos_sq (2 * Real.pi * (i : ℝ) / (NDIVS : ℝ)),
        sq_nonneg (bx * Real.sin (2 * Real.pi * (i : ℝ) / (NDIVS : ℝ)) -
          bb * Real.cos (2 * Real.pi * (i : ℝ) / (NDIVS : ℝ))),
        sq_nonneg (bx * Real.cos (2 * Real.pi * (i : ℝ) / (NDIVS : ℝ)) +
          bb * Real.sin (2 * Real.pi * (i : ℝ) / (NDIVS : ℝ)) + 2 * r),
        hr, hsep]
    exact quadratic_inv_of _ _ _ (by norm_num) (by ring) (ne_of_gt hcpos)
  exact ⟨heval, by rw [heval]; rfl⟩

/-- C5 amended witness: the concrete parallel pair at separation 10, radius
    1, generator 0. -/
theorem C5_parallel_amended_witness :
    0 < (1 : ℝ) ∧ (2 * (1 : ℝ)) ^ 2 < (10 : ℝ) ^ 2 + (0 : ℝ) ^ 2 ∧
    (intersect_line (mkCylinder ((0 : ℝ), 0, 0) ((0 : ℝ), 0, 1) 1 10)
      (genLine (mkCylinder (((10 : ℝ), 0, 0) : V3) ((0 : ℝ), 0, 1) 1 10) 0) =
      QResult.inv ∧
    segsFor
      (intersect_line (mkCylinder ((0 : ℝ), 0, 0) ((0 : ℝ), 0, 1) 1 10)
        (genLine (mkCylinder (((10 : ℝ), 0, 0) : V3) ((0 : ℝ), 0, 1) 1 10) 0))
      (((0 : ℕ) : ℝ) * (2 * Real.pi * 1) / (NDIVS : ℝ)) 10 = []) :=
  ⟨by norm_num, by norm_num,
   C5_parallel_amended 10 0 0 0 1 10 0 (by norm_num) (by norm_num)⟩

/-- C1 counterexample: for the z-axis cylinder with origin (1,0,0) and
    radius 1, the line through the world origin along (1,0,0) gets the
    intersection parameter t = 1, yet the point u + 1·v = (1,0,0) lies at
    radial distance 0 — not radius 1 — from the cylinder's axis, because
    `intersect_line` uses the line point's world x,y instead of
    origin-relative frame coordinates. -/
theorem C1_counterexample :
    (1 : ℝ) ∈ roots (intersect_line cylOff ((((0 : ℝ), 0, 0) : V3), (((1 : ℝ), 0, 0) : V3))) ∧
    radialDist cylOff (line_x ((((0 : ℝ), 0, 0) : V3), (((1 : ℝ), 0, 0) : V3)) 1) ≠
      cylOff.r := by
  have heval : intersect_line cylOff ((((0 : ℝ), 0, 0) : V3), (((1 : ℝ), 0, 0) : V3)) =
      QResult.two 1 (-1) := by
    have h1 : intersect_line cylOff ((((0 : ℝ), 0, 0) : V3), (((1 : ℝ), 0, 0) : V3)) =
        quadratic 1 0 (-1) := by
      unfold cylOff
      rw [intersect_z]
      congr 1 <;> norm_num
    have h2 : quadratic 1 0 (-1) = QResult.two 1 (-1) := by
      rw [quadratic_two_of 1 0 (-1) (by norm_num) (by norm_num)]
      rw [sqrt_eval (0 * 0 - 4 * 1 * (-1)) 2 (by norm_num) (by norm_num)]
      norm_num
    exact h1.trans h2
  refine ⟨by rw [heval]; simp, ?_⟩
  have hp : line_x ((((0 : ℝ), 0, 0) : V3), (((1 : ℝ), 0, 0) : V3)) 1 =
      (((1 : ℝ), 0, 0) : V3) := by
    unfold line_x
    norm_num
  rw [hp]
  obtain ⟨hA, _, _⟩ := frame_z (((1 : ℝ), 0, 0) : V3) 1 1
  unfold cylOff radialDist
  rw [mk_o, mk_r, hA]
  unfold vsub dot scale vnorm
  norm_num
  simp [dot]

/-- C1 amended: for a cylinder whose origin lies on the world z-axis and
    whose axis input is (0,0,1) — so that the frame is (e_x, e_y, e_z) and
    the world x,y the code uses coincide with origin-relative frame
    coordinates — every parameter t of a OneRoot or TwoRoots result places
    u + t·v at radial distance exactly r from the cylinder's axis. -/
theorem C1_radial_amended (oz r l : ℝ) (u v : V3) (t : ℝ) (hr : 0 < r)
    (ht : t ∈ roots (intersect_line (mkCylinder ((0 : ℝ), 0, oz) ((0 : ℝ), 0, 1) r l)
      (u, v))) :
    radialDist (mkCylinder ((0 : ℝ), 0, oz) ((0 : ℝ), 0, 1) r l) (line_x (u, v) t) = r := by
  rw [intersect_z] at ht
  have hsat := quadratic_root_sat _ _ _ t ht
  obtain ⟨hA, _, _⟩ := frame_z (((0 : ℝ), 0, oz) : V3) r l
  unfold radialDist
  rw [mk_o, hA]
  have hperp : vsub (vsub (line_x (u, v) t) ((0 : ℝ), 0, oz))
      (scale ((0 : ℝ), 0, 1)
        (dot (vsub (line_x (u, v) t) ((0 : ℝ), 0, oz)) ((0 : ℝ), 0, 1))) =
      ((u.1 + v.1 * t, u.2.1 + v.2.1 * t, 0) : V3) := by
    unfold line_x vsub scale dot
    norm_num
  rw [hperp]
  unfold vnorm dot
  have hval : (u.1 + v.1 * t) * (u.1 + v.1 * t) +
      (u.2.1 + v.2.1 * t) * (u.2.1 + v.2.1 * t) + 0 * 0 = r ^ 2 := by
    linear_combination hsat
  rw [hval, Real.sqrt_sq hr.le]

/-- C1 amended witness: the unit z-axis cylinder at the origin and the
    line from (2,0,0) along (-1,0,0), root t = 1. -/
theorem C1_radial_amended_witness :
    0 < (1 : ℝ) ∧
    (1 : ℝ) ∈ roots (intersect_line (mkCylinder ((0 : ℝ), 0, 0) ((0 : ℝ), 0, 1) 1 1)
      ((((2 : ℝ), 0, 0) : V3), (((-1 : ℝ), 0, 0) : V3))) ∧
    radialDist (mkCylinder ((0 : ℝ), 0, 0) ((0 : ℝ), 0, 1) 1 1)
      (line_x ((((2 : ℝ), 0, 0) : V3), (((-1 : ℝ), 0, 0) : V3)) 1) = 1 := by
  have hm : (1 : ℝ) ∈ roots (intersect_line (mkCylinder ((0 : ℝ), 0, 0) ((0 : ℝ), 0, 1) 1 1)
      ((((2 : ℝ), 0, 0) : V3), (((-1 : ℝ), 0, 0) : V3))) := by
    rw [intersect_z]
    have h1 : quadratic ((-1 : ℝ) * (-1) + 0 * 0) (2 * (2 * (-1) + 0 * 0))
        (2 * 2 + 0 * 0 - 1 * 1) = quadratic 1 (-4) 3 := by
      congr 1 <;> norm_num
    rw [h1, quadratic_two_of 1 (-4) 3 (by norm_num) (by norm_num)]
    rw [sqrt_eval ((-4) * (-4) - 4 * 1 * 3) 2 (by norm_num) (by norm_num)]
    norm_num
  exact ⟨by norm_num, hm, C1_radial_amended 0 1 1 _ _ 1 (by norm_num) hm⟩

/-- C3 counterexample: against cylA_par, generator 0 of cylB_neg yields
    TwoRoots(0.3, -1.3); the emission then draws the segment from (0,0)
    to (0,-1.3), whose endpoint y = -1.3 lies below 0 — no clipping to
    [0, length] is performed. -/
theorem C3_counterexample :
    ((((0 : ℝ), (0 : ℝ)), ((0 : ℝ), (-13 / 10 : ℝ))) : Seg) ∈
      segsFor (intersect_line cylA_par (genLine cylB_neg 0)) 0 cylB_neg.l ∧
    (-13 / 10 : ℝ) < 0 := by
  have heval : intersect_line cylA_par (genLine cylB_neg 0) =
      QResult.two (3 / 10) (-13 / 10) := by
    have h1 : intersect_line cylA_par (genLine cylB_neg 0) =
        quadratic 1 1 (-39 / 100) := by
      unfold cylB_neg
      rw [genLine_zero_y]
      unfold cylA_par
      rw [intersect_z]
      congr 1 <;> norm_num
    have h2 : quadratic 1 1 (-39 / 100) = QResult.two (3 / 10) (-13 / 10) := by
      rw [quadratic_two_of 1 1 (-39 / 100) (by norm_num) (by norm_num)]
      rw [sqrt_eval (1 * 1 - 4 * 1 * (-39 / 100)) (8 / 5) (by norm_num) (by norm_num)]
      norm_num
    exact h1.trans h2
  refine ⟨?_, by norm_num⟩
  rw [heval, segsFor_two, if_pos (by norm_num : (3 / 10 : ℝ) > -13 / 10)]
  exact List.mem_cons_self _ _

/-- C3 amended: every segment a generator column emits has its y-endpoints
    within [0, length] provided every root parameter of that generator's
    classification lies within [0, length]; the source performs no
    clipping, so out-of-range roots produce out-of-range endpoints. -/
theorem C3_bounds_amended (c0 c1 : Cylinder) (i : ℕ) (x : ℝ) (s : Seg)
    (hl : 0 ≤ c1.l)
    (hroots : rootsWithin (intersect_line c0 (genLine c1 i)) 0 c1.l)
    (hs : s ∈ segsFor (intersect_line c0 (genLine c1 i)) x c1.l) :
    0 ≤ s.1.2 ∧ s.1.2 ≤ c1.l ∧ 0 ≤ s.2.2 ∧ s.2.2 ≤ c1.l := by
  cases hq : intersect_line c0 (genLine c1 i) with
  | inf =>
      rw [hq] at hs
      simp at hs
  | inv =>
      rw [hq] at hs
      simp at hs
  | zero =>
      rw [hq] at hs
      simp at hs
      rw [hs]
      exact ⟨le_refl 0, hl, hl, le_refl c1.l⟩
  | one t =>
      rw [hq] at hs
      simp at hs
      rw [hs]
      exact ⟨le_refl 0, hl, hl, le_refl c1.l⟩
  | two t1 t2 =>
      rw [hq] at hs hroots
      have h1 := hroots t1 (by simp)
      have h2 := hroots t2 (by simp)
      rw [segsFor_two] at hs
      split_ifs at hs <;> simp at hs <;> rcases hs with hs | hs <;> rw [hs]
      · exact ⟨le_refl 0, hl, h2.1, h2.2⟩
      · exact ⟨h1.1, h1.2, hl, le_refl c1.l⟩
      · exact ⟨le_refl 0, hl, h1.1, h1.2⟩
      · exact ⟨h2.1, h2.2, hl, le_refl c1.l⟩

/-- C3 amended witness: generator 0 of cylB_inside against cylA_par gives
    TwoRoots(5.8, 4.2), both within [0, 10], and the emitted segment from
    (0,0) to (0,4.2) stays within bounds. -/
theorem C3_bounds_amended_witness :
    0 ≤ cylB_inside.l ∧
    rootsWithin (intersect_line cylA_par (genLine cylB_inside 0)) 0 cylB_inside.l ∧
    ((((0 : ℝ), (0 : ℝ)), ((0 : ℝ), (21 / 5 : ℝ))) : Seg) ∈
      segsFor (intersect_line cylA_par (genLine cylB_inside 0)) 0 cylB_inside.l ∧
    (0 ≤ (0 : ℝ) ∧ (0 : ℝ) ≤ cylB_inside.l ∧
     0 ≤ (21 / 5 : ℝ) ∧ (21 / 5 : ℝ) ≤ cylB_inside.l) := by
  have hL : cylB_inside.l = 10 := rfl
  have heval : intersect_line cylA_par (genLine cylB_inside 0) =
      QResult.two (29 / 5) (21 / 5) := by
    have h1 : intersect_line cylA_par (genLine cylB_inside 0) =
        quadratic 1 (-10) (609 / 25) := by
      unfold cylB_inside
      rw [genLine_zero_y]
      unfold cylA_par
      rw [intersect_z]
      congr 1 <;> norm_num
    have h2 : quadratic 1 (-10) (609 / 25) = QResult.two (29 / 5) (21 / 5) := by
      rw [quadratic_two_of 1 (-10) (609 / 25) (by norm_num) (by norm_num)]
      rw [sqrt_eval ((-10) * (-10) - 4 * 1 * (609 / 25)) (8 / 5) (by norm_num)
        (by norm_num)]
      norm_num
    exact h1.trans h2
  have h1 : 0 ≤ cylB_inside.l := by rw [hL]; norm_num
  have h2 : rootsWithin (intersect_line cylA_par (genLine cylB_inside 0)) 0
      cylB_inside.l := by
    rw [heval]
    intro t ht
    simp at ht
    rw [hL]
    rcases ht with ht | ht <;> rw [ht] <;> norm_num
  have h3 : ((((0 : ℝ), (0 : ℝ)), ((0 : ℝ), (21 / 5 : ℝ))) : Seg) ∈
      segsFor (intersect_line cylA_par (genLine cylB_inside 0)) 0 cylB_inside.l := by
    rw [heval, segsFor_two, if_pos (by norm_num : (29 / 5 : ℝ) > 21 / 5)]
    exact List.mem_cons_self _ _
  exact ⟨h1, h2, h3, C3_bounds_amended cylA_par cylB_inside 0 0 _ h1 h2 h3⟩

end Intersect
